import Mathlib

/-!
# Verification of the pons-cli translation client (`src/main.go`)

A shallow embedding, in Lean 4, of the cache / fetch / render pipeline of the
pons-cli interactive dictionary client, together with theorems settling the
frozen specification claims about it.

Conventions of the embedding:

* Pure Go helpers (`getTranslationCacheKey`, `toRoman`, the target-language
  label derivation of `displayTranslation`) become executable Lean functions.
* Stateful code (`handleTranslation`, `isCacheValid`,
  `cleanupExpiredCacheFiles`) is embedded by passing the observable outside
  world explicitly: the stat result of a path, the directory listing, the
  network response, and the outcomes of the fallible external calls become
  parameters, and every side effect of a run (cache reads and writes, network
  calls, render output, history inserts) is returned in an explicit `Effects`
  record.
* External library calls that the Go source merely invokes (the HTML5 parser
  of golang.org/x/net/html, the JSON decoder of encoding/json) are oracles:
  parameters of the embedding, constrained only where a claim constrains them.
  `crypto/sha256` is the exception: it is implemented concretely (FIPS 180-4
  over `Nat` with explicit reduction mod 2^32) because claims speak about the
  digest itself.
* Go machine integers are embedded as `Nat`/`Int`; times (`time.Time`,
  `time.Duration`) are `Int` nanoseconds, so `time.Since(t)` is `now - t`.
-/

namespace Pons

/-! ## SHA-256 (crypto/sha256, FIPS 180-4), over `Nat` reduced mod 2^32 -/

/-- 2^32, the word modulus of SHA-256. -/
def w32 : Nat := 4294967296

/-- Truncated addition of 32-bit words. -/
def addw (a b : Nat) : Nat := (a + b) % w32

/-- Right rotation of a 32-bit word by `n` (for `x < 2^32`, `n ≤ 32`). -/
def rotr (x n : Nat) : Nat := ((x >>> n) ||| (x <<< (32 - n))) % w32

/-- The eight initial hash words `H0` of SHA-256. -/
def shaInit : List Nat :=
  [1779033703, 3144134277, 1013904242, 2773480762,
   1359893119, 2600822924, 528734635, 1541459225]

/-- The 64 round constants `K` of SHA-256. -/
def shaK : List Nat :=
  [1116352408, 1899447441, 3049323471, 3921009573, 961987163, 1508970993,
   2453635748, 2870763221, 3624381080, 310598401, 607225278, 1426881987,
   1925078388, 2162078206, 2614888103, 3248222580, 3835390401, 4022224774,
   264347078, 604807628, 770255983, 1249150122, 1555081692, 1996064986,
   2554220882, 2821834349, 2952996808, 3210313671, 3336571891, 3584528711,
   113926993, 338241895, 666307205, 773529912, 1294757372, 1396182291,
   1695183700, 1986661051, 2177026350, 2456956037, 2730485921, 2820302411,
   3259730800, 3345764771, 3516065817, 3600352804, 4094571909, 275423344,
   430227734, 506948616, 659060556, 883997877, 958139571, 1322822218,
   1537002063, 1747873779, 1955562222, 2024104815, 2227730452, 2361852424,
   2428436474, 2756734187, 3204031479, 3329325298]

/-- Big-endian 32-bit word from four bytes. -/
def bytesToWord (a b c d : Nat) : Nat := ((a * 256 + b) * 256 + c) * 256 + d

/-- Group a byte list into big-endian 32-bit words (16 words per block). -/
def toWords : List Nat → List Nat
  | a :: b :: c :: d :: rest => bytesToWord a b c d :: toWords rest
  | _ => []

/-- The small sigma-0 message-schedule function. -/
def ssig0 (x : Nat) : Nat := (rotr x 7) ^^^ (rotr x 18) ^^^ (x >>> 3)

/-- The small sigma-1 message-schedule function. -/
def ssig1 (x : Nat) : Nat := (rotr x 17) ^^^ (rotr x 19) ^^^ (x >>> 10)

/-- Extend 16 message words to the 64-entry message schedule. -/
def msgSchedule (w : Array Nat) : Array Nat :=
  if h : w.size < 64 then
    let n := w.size
    let nw := addw (addw (w.get! (n - 16)) (ssig0 (w.get! (n - 15))))
                   (addw (w.get! (n - 7)) (ssig1 (w.get! (n - 2))))
    msgSchedule (w.push nw)
  else w
termination_by 64 - w.size
decreasing_by simp [Array.size_push]; omega

/-- The running compression state: eight 32-bit working words. -/
structure Sha8 where
  a : Nat
  b : Nat
  c : Nat
  d : Nat
  e : Nat
  f : Nat
  g : Nat
  h : Nat
deriving Repr, DecidableEq

/-- One SHA-256 compression round with schedule word `wi` and constant `ki`. -/
def shaRound (s : Sha8) (wi ki : Nat) : Sha8 :=
  let S1 := (rotr s.e 6) ^^^ (rotr s.e 11) ^^^ (rotr s.e 25)
  let ch := (s.e &&& s.f) ^^^ ((s.e ^^^ (w32 - 1)) &&& s.g)
  let t1 := addw (addw (addw s.h S1) (addw ch wi)) ki
  let S0 := (rotr s.a 2) ^^^ (rotr s.a 13) ^^^ (rotr s.a 22)
  let mj := (s.a &&& s.b) ^^^ (s.a &&& s.c) ^^^ (s.b &&& s.c)
  let t2 := addw S0 mj
  ⟨addw t1 t2, s.a, s.b, s.c, addw s.d t1, s.e, s.f, s.g⟩

/-- Compress one 64-byte block into the running state. -/
def compressBlock (s : Sha8) (block : List Nat) : Sha8 :=
  let w := msgSchedule (Array.mk (toWords block))
  let r := (w.toList.zip shaK).foldl (fun st p => shaRound st p.1 p.2) s
  ⟨addw s.a r.a, addw s.b r.b, addw s.c r.c, addw s.d r.d,
   addw s.e r.e, addw s.f r.f, addw s.g r.g, addw s.h r.h⟩

/-- Big-endian 8-byte encoding of the 64-bit message bit length. -/
def lenBytes (n : Nat) : List Nat :=
  [(n >>> 56) &&& 255, (n >>> 48) &&& 255, (n >>> 40) &&& 255,
   (n >>> 32) &&& 255, (n >>> 24) &&& 255, (n >>> 16) &&& 255,
   (n >>> 8) &&& 255, n &&& 255]

/-- SHA-256 padding: append `0x80`, zero bytes to 56 mod 64, then the
big-endian 64-bit bit length. -/
def shaPad (msg : List Nat) : List Nat :=
  let len := msg.length
  let zeros := (119 - len % 64) % 64
  msg ++ 128 :: List.replicate zeros 0 ++ lenBytes (len * 8)

/-- Split a padded message into 64-byte blocks. -/
def chunks64 (l : List Nat) : List (List Nat) :=
  if h : l.isEmpty then [] else l.take 64 :: chunks64 (l.drop 64)
termination_by l.length
decreasing_by
  simp only [List.length_drop]
  have hl : 0 < l.length := by
    cases l with
    | nil => simp at h
    | cons a t => simp
  omega

/-- Big-endian byte serialization of one 32-bit word. -/
def wordBytes (x : Nat) : List Nat :=
  [(x >>> 24) &&& 255, (x >>> 16) &&& 255, (x >>> 8) &&& 255, x &&& 255]

/-- The 32 digest bytes of a final state. -/
def digestBytes (s : Sha8) : List Nat :=
  wordBytes s.a ++ wordBytes s.b ++ wordBytes s.c ++ wordBytes s.d ++
  wordBytes s.e ++ wordBytes s.f ++ wordBytes s.g ++ wordBytes s.h

/-- The initial compression state. -/
def shaInitState : Sha8 :=
  ⟨1779033703, 3144134277, 1013904242, 2773480762,
   1359893119, 2600822924, 528734635, 1541459225⟩

/-- SHA-256 of a byte sequence (`crypto/sha256.Sum256`), as 32 digest bytes. -/
def sha256 (msg : List Nat) : List Nat :=
  digestBytes ((chunks64 (shaPad msg)).foldl compressBlock shaInitState)

/-- A lowercase hexadecimal digit character (0-15). -/
def hexDigitChar (n : Nat) : Char :=
  if n < 10 then Char.ofNat (48 + n) else Char.ofNat (87 + n)

/-- Lowercase hex encoding of a byte list (`encoding/hex.EncodeToString`). -/
def hexEncodeBytes : List Nat → String
  | [] => ""
  | b :: rest => String.mk [hexDigitChar (b / 16), hexDigitChar (b % 16)] ++
      hexEncodeBytes rest

/-- UTF-8 encoding of one code point (as `Nat`). -/
def utf8Bytes (c : Nat) : List Nat :=
  if c < 128 then [c]
  else if c < 2048 then [192 + c / 64, 128 + c % 64]
  else if c < 65536 then [224 + c / 4096, 128 + c / 64 % 64, 128 + c % 64]
  else [240 + c / 262144, 128 + c / 4096 % 64, 128 + c / 64 % 64, 128 + c % 64]

/-- The UTF-8 bytes of a string (Go `[]byte(s)`). -/
def strBytes (s : String) : List Nat :=
  s.data.foldr (fun ch acc => utf8Bytes ch.toNat ++ acc) []

/-- Go `getTranslationCacheKey(word, dict)`: the lowercase hex encoding of the
SHA-256 digest of the UTF-8 bytes of `word + "_" + dict`. -/
def getTranslationCacheKey (word dict : String) : String :=
  hexEncodeBytes (sha256 (strBytes (word ++ "_" ++ dict)))

/-! ## Cache freshness (`isCacheValid`)

Times are `Int` nanoseconds. `os.Stat` on a path yields a `StatResult`:
the path may not exist, stat may fail for another reason, or it succeeds
with the file's last-modified time. `time.Since(t)` is `now - t` and may be
negative when the modification time lies in the future. -/

/-- The outcome of `os.Stat` on a path, reduced to what `isCacheValid`
inspects: non-existence, any other stat failure, or the modification time. -/
inductive StatResult where
  | notExist
  | statError
  | ok (modTime : Int)
deriving DecidableEq, Repr

/-- Go `isCacheValid(path, ttl)`: false when the path does not exist or stat
fails; otherwise `time.Since(modTime) < ttl`, i.e. `now - modTime < ttl`. -/
def isCacheValid (st : StatResult) (ttl now : Int) : Bool :=
  match st with
  | StatResult.notExist => false
  | StatResult.statError => false
  | StatResult.ok modTime => decide (now - modTime < ttl)

/-! ## Roman numerals (`toRoman`) -/

/-- The value table of `toRoman` (Go `vals`). -/
def vals : List Nat := [1000, 900, 500, 400, 100, 90, 50, 40, 10, 9, 5, 4, 1]

/-- The symbol table of `toRoman` (Go `romans`), indexed in parallel with
`vals`. -/
def romans : List String :=
  ["M", "CM", "D", "CD", "C", "XC", "L", "XL", "X", "IX", "V", "IV", "I"]

/-- The inner `for num >= v` loop of `toRoman`: subtract `v` and append `sym`
to the builder while `v ≤ num`. (All table values are positive; the `0 < v`
guard only makes the function total.) -/
def toRomanLoop (v : Nat) (sym : String) (num : Nat) (sb : String) :
    Nat × String :=
  if h : 0 < v ∧ v ≤ num then toRomanLoop v sym (num - v) (sb ++ sym)
  else (num, sb)
termination_by num
decreasing_by omega

/-- The outer `for i, v := range vals` loop of `toRoman`, over the paired
value/symbol table, threading the remainder and the string builder. -/
def toRomanAux : List (Nat × String) → Nat → String → String
  | [], _, sb => sb
  | (v, sym) :: rest, num, sb =>
      let p := toRomanLoop v sym num sb
      toRomanAux rest p.1 p.2

/-- Go `toRoman(num)`: greedy table-driven Roman numeral conversion. -/
def toRoman (num : Nat) : String := toRomanAux (vals.zip romans) num ""

/-! ## Markup stripping (`parseHTML`)

The HTML5 parser of golang.org/x/net/html is an external library; the
embedding keeps its node shape (node type, data, children in document order)
and takes the parse itself as an oracle `String → Except Unit HtmlNode`. -/

/-- The node types of golang.org/x/net/html. -/
inductive HNodeType where
  | errorNode
  | textNode
  | documentNode
  | elementNode
  | commentNode
  | doctypeNode
deriving DecidableEq, Repr

/-- A parsed node: its type, its data (text content for text nodes, tag name
for elements), its attributes, and its children in document order. -/
inductive HtmlNode where
  | mk (ntype : HNodeType) (data : String) (attrs : List (String × String))
       (children : List HtmlNode)

mutual

/-- The recursive traversal `f` inside `parseHTML`: append the data of every
text node, in document order (node before children, children left to
right). -/
def collectText : HtmlNode → String
  | HtmlNode.mk t d _ cs =>
      (if t = HNodeType.textNode then d else "") ++ collectTextList cs

/-- Text collection over a sibling list, left to right. -/
def collectTextList : List HtmlNode → String
  | [] => ""
  | c :: rest => collectText c ++ collectTextList rest

end

/-- Go `parseHTML(htmlString)`: parse, and on error return the raw string;
otherwise concatenate all text-node data in document order. -/
def parseHTML (parse : String → Except Unit HtmlNode) (s : String) : String :=
  match parse s with
  | Except.error _ => s
  | Except.ok doc => collectText doc

/-! ## Target-language label (`displayTranslation` header)

`displayTranslation` prints, for each language block,
`strings.ToUpper(lang)` + " > " + `strings.ToUpper(strings.Replace(dictKey,
lang, "", 1))`. `strings.Replace(s, old, "", 1)` removes the first occurrence
of `old` from `s` (and returns `s` unchanged when `old == new`, i.e. when
`old` is empty, or when `old` does not occur). Go works on UTF-8 bytes; a
valid UTF-8 pattern can only match at a character boundary, so the embedding
works on `List Char`. `strings.ToUpper` is embedded as `Char.toUpper`
(identical on the ASCII dictionary keys and language codes in scope). -/

/-- Whether `pat` is an initial segment of `hay`. -/
def listPrefixOf : List Char → List Char → Bool
  | [], _ => true
  | _ :: _, [] => false
  | a :: ps, b :: hs => a == b && listPrefixOf ps hs

/-- `strings.Index`: the first index at which `pat` occurs in `hay`. -/
def firstIndexOf (pat : List Char) : List Char → Option Nat
  | [] => if listPrefixOf pat [] then some 0 else none
  | a :: t =>
      if listPrefixOf pat (a :: t) then some 0
      else Option.map (fun i => i + 1) (firstIndexOf pat t)

/-- Go `strings.Replace(s, old, "", 1)`: remove the first occurrence of
`old` from `s`; when `old` is empty (then `old == new`) or does not occur,
return `s` unchanged. -/
def replaceOnceEmpty (s old : String) : String :=
  if old = "" then s
  else
    match firstIndexOf old.data s.data with
    | none => s
    | some i =>
        String.mk (s.data.take i ++ s.data.drop (i + old.data.length))

/-- `strings.ToUpper`, as character-wise uppercasing. -/
def toUpperStr (s : String) : String := String.mk (s.data.map Char.toUpper)

/-- The derived target-language label of a block header:
`strings.ToUpper(strings.Replace(dictKey, lang, "", 1))`. -/
def targetLabel (dictKey lang : String) : String :=
  toUpperStr (replaceOnceEmpty dictKey lang)

/-- The full block header text, `LANG > TARGETLABEL`. -/
def languageBlockHeader (dictKey lang : String) : String :=
  toUpperStr lang ++ " > " ++ targetLabel dictKey lang

/-! ## The translation data model (`TranslationResponse`) -/

/-- One source/target pair (`Translation`). -/
structure Translation where
  source : String
  target : String
deriving DecidableEq, Repr

/-- A sense group under a headword (`Arab`). -/
structure Arab where
  header : String
  translations : List Translation
deriving DecidableEq, Repr

/-- A headword grouping (`Rom`). -/
structure Rom where
  headword : String
  arabs : List Arab
deriving DecidableEq, Repr

/-- One match record (`Hit`). -/
structure Hit where
  roms : List Rom
  source : String
  target : String
deriving DecidableEq, Repr

/-- One language block of a response. -/
structure LangBlock where
  lang : String
  hits : List Hit
deriving DecidableEq, Repr

/-- The decoded response: a sequence of language blocks. -/
abbrev TranslationResponse := List LangBlock

/-! ## Startup cache sweep (`cleanupExpiredCacheFiles`)

The directory listing, per-entry `Info()` outcome and per-entry remove
outcome are the explicit input; the sweep returns the names it removed and
the per-entry failures it logged and skipped. -/

/-- One directory entry of the cache root, with the outcomes of the external
calls the sweep makes on it: `Info()` (yielding the modification time) and
`os.Remove`. -/
structure CacheEntry where
  name : String
  isDir : Bool
  info : Except Unit Int
  removeOk : Bool
deriving Repr

/-- A logged, skipped per-entry failure of the sweep. -/
inductive SweepLog where
  | statFailed (name : String)
  | removeFailed (name : String)
deriving DecidableEq, Repr

/-- The entry loop of `cleanupExpiredCacheFiles`: directories are skipped; a
failing `Info()` is logged and the entry skipped; an entry with
`now - modTime > ttl` is removed (a failing remove is logged and skipped);
all other entries are left in place. Returns (removed names, logs), in
directory order. -/
def sweepEntries (ttl now : Int) : List CacheEntry → List String × List SweepLog
  | [] => ([], [])
  | e :: rest =>
      let r := sweepEntries ttl now rest
      if e.isDir then r
      else
        match e.info with
        | Except.error _ => (r.1, SweepLog.statFailed e.name :: r.2)
        | Except.ok modTime =>
            if now - modTime > ttl then
              if e.removeOk then (e.name :: r.1, r.2)
              else (r.1, SweepLog.removeFailed e.name :: r.2)
            else r

/-- Go `cleanupExpiredCacheFiles`: a failing `os.ReadDir` aborts the sweep
with an error; otherwise every listed entry is processed by `sweepEntries`. -/
def cleanupExpiredCacheFiles (listing : Except Unit (List CacheEntry))
    (ttl now : Int) : Except Unit (List String × List SweepLog) :=
  match listing with
  | Except.error e => Except.error e
  | Except.ok entries => Except.ok (sweepEntries ttl now entries)

/-! ## The translation pipeline (`handleTranslation`)

The outside world of one lookup is passed explicitly: the active dictionary
and cache TTL configuration, the stat result of each path, the cache-file
read outcome, the network response (or a transport failure), the outcome of
the cache write, the JSON decoder (an oracle for `encoding/json.Unmarshal`),
and the outcome of the history insert. Every observable side effect of the
run is returned in an `Effects` record. -/

/-- The error cases of `handleTranslation`, in source order. -/
inductive LookupError where
  | noDictSelected
  | cacheOpenFailed
  | cacheReadFailed
  | cacheUnmarshalFailed
  | fetchFailed
  | badStatus (code : Nat)
  | bodyReadFailed
  | unmarshalFailed
deriving DecidableEq, Repr

/-- A cache-file read failure: `os.Open` failed, or `io.ReadAll` failed. -/
inductive ReadErr where
  | openFailed
  | readFailed
deriving DecidableEq, Repr

/-- An HTTP response as `handleTranslation` observes it: the status code and
the outcome of `io.ReadAll(resp.Body)`. -/
structure NetResp where
  status : Nat
  bodyRead : Except Unit (List Nat)

/-- The outside world of one lookup. -/
structure TransEnv where
  /-- The active dictionary selection (`currentDict`). -/
  currentDict : String
  /-- The cache directory (`filepath.Join(xdg.CacheHome, "pons-cli")`). -/
  cacheDir : String
  /-- `config.CacheTTL`, in seconds. -/
  cacheTTLSeconds : Int
  /-- The current time, in nanoseconds. -/
  now : Int
  /-- `os.Stat` on a path. -/
  stat : String → StatResult
  /-- Opening and reading a cache file. -/
  readFile : String → Except ReadErr (List Nat)
  /-- The network: `none` is a transport failure of `http.DefaultClient.Do`. -/
  net : Option NetResp
  /-- Whether `os.WriteFile` of the cache file succeeds. -/
  writeOk : Bool
  /-- `encoding/json.Unmarshal` into `TranslationResponse` (an oracle). -/
  decode : List Nat → Option TranslationResponse
  /-- Whether the history insert succeeds (its failure is only logged). -/
  historyOk : Bool

/-- The observable side effects of one lookup. -/
structure Effects where
  /-- Cache files opened for reading, in order. -/
  cacheReads : List String
  /-- Number of network requests issued. -/
  netCalls : Nat
  /-- Successful cache writes, as (path, bytes). -/
  cacheWrites : List (String × List Nat)
  /-- Number of JSON deserialization attempts. -/
  decodeAttempts : Nat
  /-- Responses rendered by `displayTranslation`, in order. -/
  renders : List TranslationResponse
  /-- Whether "No translation found" was printed. -/
  printedNoTranslation : Bool
  /-- History inserts attempted, as (term, dictionary). -/
  historyAdds : List (String × String)
deriving DecidableEq, Repr

/-- A run with no observable effects. -/
def noEffects : Effects := ⟨[], 0, [], 0, [], false, []⟩

/-- Go `getCacheFile(name)`: the path of `name` under the cache directory. -/
def getCacheFile (env : TransEnv) (name : String) : String :=
  env.cacheDir ++ "/" ++ name

/-- The cache file path of one lookup:
`getCacheFile(getTranslationCacheKey(word, currentDict) + ".json")`. -/
def lookupCacheFile (env : TransEnv) (word : String) : String :=
  getCacheFile env (getTranslationCacheKey word env.currentDict ++ ".json")

/-- The TTL of one lookup in nanoseconds:
`time.Duration(config.CacheTTL) * time.Second`. -/
def lookupTTL (env : TransEnv) : Int := env.cacheTTLSeconds * 1000000000

/-- Go `handleTranslation(word)`, straight-line from the source: reject when
no dictionary is selected; on a fresh cache file read, decode and render it;
otherwise fetch, special-case 204, fail on any status other than 200, write
the body to the cache best-effort, decode and render. The history insert is
attempted on both render paths and its failure is only logged. -/
def handleTranslation (env : TransEnv) (word : String) :
    Except LookupError Unit × Effects :=
  if env.currentDict = "" then
    (Except.error LookupError.noDictSelected, noEffects)
  else
    let cacheFile := lookupCacheFile env word
    let cacheTTL := lookupTTL env
    if isCacheValid (env.stat cacheFile) cacheTTL env.now then
      match env.readFile cacheFile with
      | Except.error ReadErr.openFailed =>
          (Except.error LookupError.cacheOpenFailed,
           ⟨[cacheFile], 0, [], 0, [], false, []⟩)
      | Except.error ReadErr.readFailed =>
          (Except.error LookupError.cacheReadFailed,
           ⟨[cacheFile], 0, [], 0, [], false, []⟩)
      | Except.ok body =>
          match env.decode body with
          | none =>
              (Except.error LookupError.cacheUnmarshalFailed,
               ⟨[cacheFile], 0, [], 1, [], false, []⟩)
          | some translations =>
              (Except.ok (),
               ⟨[cacheFile], 0, [], 1, [translations], false,
                [(word, env.currentDict)]⟩)
    else
      match env.net with
      | none =>
          (Except.error LookupError.fetchFailed,
           ⟨[], 1, [], 0, [], false, []⟩)
      | some resp =>
          if resp.status = 204 then
            (Except.ok (), ⟨[], 1, [], 0, [], true, []⟩)
          else if resp.status ≠ 200 then
            (Except.error (LookupError.badStatus resp.status),
             ⟨[], 1, [], 0, [], false, []⟩)
          else
            match resp.bodyRead with
            | Except.error _ =>
                (Except.error LookupError.bodyReadFailed,
                 ⟨[], 1, [], 0, [], false, []⟩)
            | Except.ok body =>
                let writes := if env.writeOk then [(cacheFile, body)] else []
                match env.decode body with
                | none =>
                    (Except.error LookupError.unmarshalFailed,
                     ⟨[], 1, writes, 1, [], false, []⟩)
                | some translations =>
                    (Except.ok (),
                     ⟨[], 1, writes, 1, [translations], false,
                      [(word, env.currentDict)]⟩)

/-- Replace the cache-write outcome of an environment (used to compare runs
that differ only in whether the cache write succeeds). -/
def setWriteOk (env : TransEnv) (b : Bool) : TransEnv :=
  ⟨env.currentDict, env.cacheDir, env.cacheTTLSeconds, env.now, env.stat,
   env.readFile, env.net, b, env.decode, env.historyOk⟩

/-! ## Spec-side definitions

Definitions below this point follow the specification's words (for the
refinement claims), not the source; each says so. -/

/-- Written from the spec: one greedy step — "the largest value not exceeding
the remainder", looked up in the value/symbol table. The table is strictly
decreasing in its values, so the first entry whose value is `≤ n` is the
largest such value. -/
def greedyStep (n : Nat) : Option (Nat × String) :=
  (vals.zip romans).find? (fun p => p.1 ≤ n)

/-- Written from the spec: "repeatedly subtracting the largest value not
exceeding the remainder and appending its symbol until the remainder is
zero" (when no table value fits, the remainder is zero and the conversion
stops). -/
def greedyRoman (n : Nat) : String :=
  match h : greedyStep n with
  | none => ""
  | some (v, sym) => sym ++ greedyRoman (n - v)
termination_by n
decreasing_by
  have hv := List.find?_some h
  have hm := List.mem_of_find?_eq_some h
  have hpos : ∀ p ∈ vals.zip romans, 0 < p.1 := by decide
  have h1 := hpos _ hm
  simp at hv
  omega

/-- `sym` repeated `k` times (the effect of `k` builder appends). -/
def repeatStr (sym : String) : Nat → String
  | 0 => ""
  | k + 1 => sym ++ repeatStr sym k

/-- The loop-free form of `toRomanAux`: each table entry `(v, sym)`
contributes `sym` repeated `n / v` times and reduces the remainder to
`n % v`. -/
def romanPure : List (Nat × String) → Nat → String
  | [], _ => ""
  | (v, sym) :: rest, n => repeatStr sym (n / v) ++ romanPure rest (n % v)

/-- The per-entry removal outcome of the sweep: the name of a non-directory
entry whose stat succeeded, whose age strictly exceeds the TTL, and whose
remove succeeded. -/
def sweepRemoved (ttl now : Int) (e : CacheEntry) : Option String :=
  if e.isDir then none
  else
    match e.info with
    | Except.error _ => none
    | Except.ok modTime =>
        if now - modTime > ttl then
          if e.removeOk then some e.name else none
        else none

/-- The per-entry log outcome of the sweep: a failing stat is logged, and a
failing remove of an expired entry is logged. -/
def sweepLogged (ttl now : Int) (e : CacheEntry) : Option SweepLog :=
  if e.isDir then none
  else
    match e.info with
    | Except.error _ => some (SweepLog.statFailed e.name)
    | Except.ok modTime =>
        if now - modTime > ttl then
          if e.removeOk then none else some (SweepLog.removeFailed e.name)
        else none

/-- The HTML5 document tree of `"<b>Hello</b> <i>World</i>"`: a document
holding an `html` element with an empty `head` and a `body` containing
`b("Hello")`, the text `" "`, and `i("World")`. -/
def exampleDoc : HtmlNode :=
  HtmlNode.mk HNodeType.documentNode "" []
    [HtmlNode.mk HNodeType.elementNode "html" []
      [HtmlNode.mk HNodeType.elementNode "head" [] [],
       HtmlNode.mk HNodeType.elementNode "body" []
         [HtmlNode.mk HNodeType.elementNode "b" []
            [HtmlNode.mk HNodeType.textNode "Hello" [] []],
          HtmlNode.mk HNodeType.textNode " " [] [],
          HtmlNode.mk HNodeType.elementNode "i" []
            [HtmlNode.mk HNodeType.textNode "World" [] []]]]]

/-! ## Concrete environments used by the witnesses -/

/-- A lookup environment with no dictionary selected. -/
def envNoDict : TransEnv :=
  ⟨"", "/cache", 604800, 0, fun _ => StatResult.notExist,
   fun _ => Except.error ReadErr.openFailed, none, true, fun _ => none, true⟩

/-- A cache-miss environment whose fetch answers 204 with an empty body. -/
def env204 : TransEnv :=
  ⟨"ende", "/cache", 604800, 0, fun _ => StatResult.notExist,
   fun _ => Except.error ReadErr.openFailed,
   some ⟨204, Except.ok []⟩, true, fun _ => none, true⟩

/-- A cache-miss environment whose fetch answers 200 with body `[1, 2]`, and
whose decoder yields the empty response. -/
def env200 : TransEnv :=
  ⟨"ende", "/cache", 604800, 0, fun _ => StatResult.notExist,
   fun _ => Except.error ReadErr.openFailed,
   some ⟨200, Except.ok [1, 2]⟩, true, fun _ => some [], true⟩

/-! ## Helper lemmas -/

/-- The digest of a final state is 32 bytes, whatever the state. -/
theorem digestBytes_length (s : Sha8) : (digestBytes s).length = 32 := by
  simp [digestBytes, wordBytes]

/-- SHA-256 always yields 32 digest bytes. -/
theorem sha256_length (msg : List Nat) : (sha256 msg).length = 32 := by
  simp [sha256, digestBytes_length]

/-- Hex encoding yields two characters per byte. -/
theorem hexEncodeBytes_length (l : List Nat) :
    (hexEncodeBytes l).length = 2 * l.length := by
  induction l with
  | nil => rfl
  | cons b rest ih =>
      simp only [hexEncodeBytes, String.length_append, ih, List.length_cons]
      have : (String.mk [hexDigitChar (b / 16), hexDigitChar (b % 16)]).length
          = 2 := rfl
      omega

/-! ## The claims -/

/-- C3: for every word and dictionary code, the cache key is the fixed-length
(64-character) lowercase hexadecimal encoding of the SHA-256 digest of the
UTF-8 bytes of `word + "_" + dict`, and the key is a pure deterministic
function of the pair: two derivations from the same pair yield the same
key. -/
theorem claim_C3_cache_key (word dict word2 dict2 : String) :
    getTranslationCacheKey word dict
      = hexEncodeBytes (sha256 (strBytes (word ++ "_" ++ dict))) ∧
    (getTranslationCacheKey word dict).length = 64 ∧
    (word = word2 → dict = dict2 →
      getTranslationCacheKey word dict = getTranslationCacheKey word2 dict2) := by
  refine ⟨rfl, ?_, ?_⟩
  · rw [getTranslationCacheKey, hexEncodeBytes_length, sha256_length]
  · intro h1 h2; rw [h1, h2]

/-- Witness for C3 at the concrete pair ("hello", "ende"). -/
theorem claim_C3_cache_key_witness :
    getTranslationCacheKey "hello" "ende"
      = getTranslationCacheKey "hello" "ende" ∧
    (getTranslationCacheKey "hello" "ende").length = 64 :=
  ⟨(claim_C3_cache_key "hello" "ende" "hello" "ende").2.2 rfl rfl,
   (claim_C3_cache_key "hello" "ende" "hello" "ende").2.1⟩

/-- C10: the key derivation is not injective over (word, dict) pairs even
with a collision-free hash: the distinct pairs ("a_b", "c") and ("a", "b_c")
concatenate to the same string "a_b_c" and so share one cache key. -/
theorem claim_C10_key_not_injective :
    getTranslationCacheKey "a_b" "c" = getTranslationCacheKey "a" "b_c" ∧
    ¬ ("a_b" = "a" ∧ "c" = "b_c") := by
  constructor
  · simp only [getTranslationCacheKey]
    rfl
  · decide

/-- C9: a lookup issued with no dictionary selected terminates immediately
with the no-dictionary error: no cache read, no network call, no cache
write, no deserialization, no render, and no history insert. -/
theorem claim_C9_no_dict (env : TransEnv) (word : String)
    (h : env.currentDict = "") :
    handleTranslation env word
      = (Except.error LookupError.noDictSelected, noEffects) := by
  simp [handleTranslation, h]

/-- Witness for C9 on a concrete environment with empty selection. -/
theorem claim_C9_no_dict_witness :
    handleTranslation envNoDict "hello"
      = (Except.error LookupError.noDictSelected, noEffects) :=
  claim_C9_no_dict envNoDict "hello" rfl

/-- C2 counterexample: the claim says any ttl ≤ 0 makes the check return
false for every path, but a file whose modification time (10) lies in the
future of `now` (5) is reported fresh at ttl = 0, because
`now - modTime = -5 < 0`. -/
theorem claim_C2_counterexample :
    (0 : Int) ≤ 0 ∧ isCacheValid (StatResult.ok 10) 0 5 = true := by decide

/-- C2 (amended): false when the path does not exist or stat fails;
otherwise true iff `now - modTime < ttl`; false at the first instant the TTL
has fully elapsed and true strictly before; and for ttl ≤ 0 false for every
path whose modification time is not in the future (`modTime ≤ now`). -/
theorem claim_C2_freshness (ttl now modTime : Int) :
    isCacheValid StatResult.notExist ttl now = false ∧
    isCacheValid StatResult.statError ttl now = false ∧
    (isCacheValid (StatResult.ok modTime) ttl now = true ↔
      now - modTime < ttl) ∧
    (ttl ≤ 0 → modTime ≤ now →
      isCacheValid (StatResult.ok modTime) ttl now = false) ∧
    (now - modTime = ttl → isCacheValid (StatResult.ok modTime) ttl now = false) ∧
    (now - modTime < ttl → isCacheValid (StatResult.ok modTime) ttl now = true) := by
  refine ⟨rfl, rfl, ?_, ?_, ?_, ?_⟩ <;> simp [isCacheValid] <;> omega

/-- Witness for C2 at ttl = 5: stale exactly when the TTL has elapsed
(modTime 0, now 5), fresh one instant before (now 4). -/
theorem claim_C2_freshness_witness :
    isCacheValid (StatResult.ok 0) 5 5 = false ∧
    isCacheValid (StatResult.ok 0) 5 4 = true :=
  ⟨(claim_C2_freshness 5 5 0).2.2.2.2.1 (by decide),
   (claim_C2_freshness 5 4 0).2.2.2.2.2 (by decide)⟩

/-- C1: on a lookup that reaches the network (dictionary selected, cache not
fresh, transport succeeded), the fetch outcome is decided by the status code
alone: 204 prints "No translation found" and returns success with no cache
write and no deserialization; any status other than 200 and 204 fails with
an error carrying that status; 200 proceeds to the render path (cache write
attempted, one deserialization, and — when the body reads and decodes — a
render, a history insert, and success). -/
theorem claim_C1_status_codes (env : TransEnv) (word : String) (resp : NetResp)
    (hdict : env.currentDict ≠ "")
    (hmiss : isCacheValid (env.stat (lookupCacheFile env word)) (lookupTTL env)
      env.now = false)
    (hnet : env.net = some resp) :
    (resp.status = 204 →
      handleTranslation env word = (Except.ok (), ⟨[], 1, [], 0, [], true, []⟩)) ∧
    (resp.status ≠ 200 → resp.status ≠ 204 →
      handleTranslation env word
        = (Except.error (LookupError.badStatus resp.status),
           ⟨[], 1, [], 0, [], false, []⟩)) ∧
    (∀ body translations, resp.status = 200 →
      resp.bodyRead = Except.ok body → env.decode body = some translations →
      handleTranslation env word
        = (Except.ok (),
           ⟨[], 1, (if env.writeOk then [(lookupCacheFile env word, body)] else []),
            1, [translations], false, [(word, env.currentDict)]⟩)) := by
  refine ⟨?_, ?_, ?_⟩
  · intro h204
    simp [handleTranslation, hdict, hmiss, hnet, h204]
  · intro h200 h204
    simp [handleTranslation, hdict, hmiss, hnet, h200, h204]
  · intro body translations h200 hbody hdec
    simp [handleTranslation, hdict, hmiss, hnet, h200, hbody, hdec]

/-- Witness for C1: the concrete 204 environment prints the message, returns
success, writes nothing and deserializes nothing. -/
theorem claim_C1_status_codes_witness :
    handleTranslation env204 "hello" = (Except.ok (), ⟨[], 1, [], 0, [], true, []⟩) :=
  (claim_C1_status_codes env204 "hello" ⟨204, Except.ok []⟩
    (by decide) rfl rfl).1 rfl

/-- C4: for a lookup whose fetch succeeded with status 200, a cache-write
failure changes nothing the user can observe: the result, the renders, the
printed message, the deserialization count and the history inserts are those
of the run whose write succeeded; only the persisted write differs (present
on success, absent on failure), and when the body decodes the failing-write
run still renders and returns success. -/
theorem claim_C4_write_failure_not_propagated (env : TransEnv) (word : String)
    (resp : NetResp) (body : List Nat)
    (hdict : env.currentDict ≠ "")
    (hmiss : isCacheValid (env.stat (lookupCacheFile env word)) (lookupTTL env)
      env.now = false)
    (hnet : env.net = some resp)
    (hstatus : resp.status = 200)
    (hbody : resp.bodyRead = Except.ok body) :
    (handleTranslation (setWriteOk env true) word).1
      = (handleTranslation (setWriteOk env false) word).1 ∧
    (handleTranslation (setWriteOk env true) word).2.renders
      = (handleTranslation (setWriteOk env false) word).2.renders ∧
    (handleTranslation (setWriteOk env true) word).2.printedNoTranslation
      = (handleTranslation (setWriteOk env false) word).2.printedNoTranslation ∧
    (handleTranslation (setWriteOk env true) word).2.decodeAttempts
      = (handleTranslation (setWriteOk env false) word).2.decodeAttempts ∧
    (handleTranslation (setWriteOk env true) word).2.historyAdds
      = (handleTranslation (setWriteOk env false) word).2.historyAdds ∧
    (handleTranslation (setWriteOk env false) word).2.cacheWrites = [] ∧
    (handleTranslation (setWriteOk env true) word).2.cacheWrites
      = [(lookupCacheFile env word, body)] ∧
    (∀ translations, env.decode body = some translations →
      (handleTranslation (setWriteOk env false) word).1 = Except.ok () ∧
      (handleTranslation (setWriteOk env false) word).2.renders
        = [translations]) := by
  have hmiss2 : isCacheValid
      (env.stat (env.cacheDir ++ "/" ++
        (getTranslationCacheKey word env.currentDict ++ ".json")))
      (env.cacheTTLSeconds * 1000000000) env.now = false := by
    simpa [lookupCacheFile, lookupTTL, getCacheFile] using hmiss
  cases hdec : env.decode body with
  | none =>
      refine ⟨?_, ?_, ?_, ?_, ?_, ?_, ?_, ?_⟩ <;>
        simp [handleTranslation, setWriteOk, lookupCacheFile, lookupTTL,
          getCacheFile, hdict, hmiss2, hnet, hstatus, hbody, hdec]
  | some translations =>
      refine ⟨?_, ?_, ?_, ?_, ?_, ?_, ?_, ?_⟩ <;>
        simp [handleTranslation, setWriteOk, lookupCacheFile, lookupTTL,
          getCacheFile, hdict, hmiss2, hnet, hstatus, hbody, hdec]

/-- Witness for C4 on the concrete 200 environment. -/
theorem claim_C4_write_failure_not_propagated_witness :
    (handleTranslation (setWriteOk env200 true) "hello").1
      = (handleTranslation (setWriteOk env200 false) "hello").1 ∧
    (handleTranslation (setWriteOk env200 false) "hello").2.cacheWrites = [] :=
  ⟨(claim_C4_write_failure_not_propagated env200 "hello" ⟨200, Except.ok [1, 2]⟩
      [1, 2] (by decide) rfl rfl rfl rfl).1,
   (claim_C4_write_failure_not_propagated env200 "hello" ⟨200, Except.ok [1, 2]⟩
      [1, 2] (by decide) rfl rfl rfl rfl).2.2.2.2.2.1⟩

/-- C8: the startup sweep processes every listed entry independently and
never aborts on one: its removals are exactly the non-directory entries
whose stat succeeded, whose age strictly exceeds the TTL and whose remove
succeeded, and its logged-and-skipped failures are exactly the per-entry
stat failures and the failed removes of expired entries — each given by a
per-entry function mapped over the full listing. -/
theorem claim_C8_sweep (entries : List CacheEntry) (ttl now : Int) :
    cleanupExpiredCacheFiles (Except.ok entries) ttl now
      = Except.ok (entries.filterMap (sweepRemoved ttl now),
                   entries.filterMap (sweepLogged ttl now)) := by
  simp only [cleanupExpiredCacheFiles]
  congr 1
  induction entries with
  | nil => rfl
  | cons e rest ih =>
      rcases e with ⟨name, isDir, info, removeOk⟩
      cases isDir <;> cases info <;>
        simp [sweepEntries, sweepRemoved, sweepLogged, ih, List.filterMap_cons] <;>
        split_ifs <;> simp [ih]

/-- C5: markup stripping is total and never fatal: when the parse oracle
(the external HTML5 parser) fails it returns the original string unchanged,
when the parse succeeds it returns the concatenation of all text-node data
in document order, and on the HTML5 document tree of
`"<b>Hello</b> <i>World</i>"` that concatenation is `"Hello World"`. -/
theorem claim_C5_markup_strip (parse : String → Except Unit HtmlNode)
    (s : String) :
    (∀ e, parse s = Except.error e → parseHTML parse s = s) ∧
    (∀ doc, parse s = Except.ok doc → parseHTML parse s = collectText doc) ∧
    (parse "<b>Hello</b> <i>World</i>" = Except.ok exampleDoc →
      parseHTML parse "<b>Hello</b> <i>World</i>" = "Hello World") := by
  refine ⟨?_, ?_, ?_⟩
  · intro e he; simp [parseHTML, he]
  · intro doc hd; simp [parseHTML, hd]
  · intro hp
    simp only [parseHTML, hp]
    simp [exampleDoc, collectText, collectTextList]

/-- Witness for C5: a concrete parse oracle failing on one input and
producing the example tree on the other. -/
theorem claim_C5_markup_strip_witness :
    parseHTML (fun str => if str = "<b>Hello</b> <i>World</i>"
        then Except.ok exampleDoc else Except.error ()) "<b>Hello"
      = "<b>Hello" ∧
    parseHTML (fun str => if str = "<b>Hello</b> <i>World</i>"
        then Except.ok exampleDoc else Except.error ())
        "<b>Hello</b> <i>World</i>"
      = "Hello World" :=
  ⟨(claim_C5_markup_strip _ "<b>Hello").1 () rfl,
   (claim_C5_markup_strip _ "<b>Hello</b> <i>World</i>").2.2 rfl⟩

/-- A successful pattern search yields a real occurrence, and the first one:
the pattern is an initial segment of the suffix at the reported index, and
at no earlier index. -/
theorem firstIndexOf_eq_some (pat : List Char) :
    ∀ (hay : List Char) (i : Nat), firstIndexOf pat hay = some i →
      listPrefixOf pat (hay.drop i) = true ∧
      ∀ j, j < i → listPrefixOf pat (hay.drop j) = false := by
  intro hay
  induction hay with
  | nil =>
      intro i h
      by_cases hp : listPrefixOf pat [] = true
      · simp [firstIndexOf, hp] at h
        subst h
        exact ⟨hp, by omega⟩
      · simp [firstIndexOf, hp] at h
  | cons a t ih =>
      intro i h
      by_cases hp : listPrefixOf pat (a :: t) = true
      · simp [firstIndexOf, hp] at h
        subst h
        exact ⟨hp, by omega⟩
      · simp [firstIndexOf, hp] at h
        obtain ⟨i2, hi2, rfl⟩ := h
        obtain ⟨h1, h2⟩ := ih i2 hi2
        refine ⟨by simpa using h1, ?_⟩
        intro j hj
        cases j with
        | zero => simpa using Bool.not_eq_true _ |>.mp hp
        | succ j2 => simpa using h2 j2 (by omega)

/-- A failed pattern search means the pattern starts at no index at all. -/
theorem firstIndexOf_eq_none (pat : List Char) :
    ∀ (hay : List Char), firstIndexOf pat hay = none →
      ∀ j, listPrefixOf pat (hay.drop j) = false := by
  intro hay
  induction hay with
  | nil =>
      intro h j
      by_cases hp : listPrefixOf pat [] = true
      · simp [firstIndexOf, hp] at h
      · simpa using Bool.not_eq_true _ |>.mp hp
  | cons a t ih =>
      intro h j
      by_cases hp : listPrefixOf pat (a :: t) = true
      · simp [firstIndexOf, hp] at h
      · simp [firstIndexOf, hp] at h
        cases j with
        | zero => simpa using Bool.not_eq_true _ |>.mp hp
        | succ j2 => simpa using ih h j2

/-- C6: the derived target-language label is the dictionary key with the
block's language code removed as a substring exactly once — at its first
occurrence — then uppercased; when the code does not occur the key is only
uppercased; and dictionary key "ende" with language "en" yields "DE". -/
theorem claim_C6_target_label :
    targetLabel "ende" "en" = "DE" ∧
    (∀ dictKey lang : String, lang ≠ "" →
      (∀ i, firstIndexOf lang.data dictKey.data = some i →
        listPrefixOf lang.data (dictKey.data.drop i) = true ∧
        (∀ j, j < i → listPrefixOf lang.data (dictKey.data.drop j) = false) ∧
        targetLabel dictKey lang
          = toUpperStr (String.mk (dictKey.data.take i ++
              dictKey.data.drop (i + lang.data.length)))) ∧
      (firstIndexOf lang.data dictKey.data = none →
        targetLabel dictKey lang = toUpperStr dictKey)) := by
  refine ⟨by decide, ?_⟩
  intro dictKey lang hl
  constructor
  · intro i hi
    obtain ⟨h1, h2⟩ := firstIndexOf_eq_some _ _ _ hi
    exact ⟨h1, h2, by simp [targetLabel, replaceOnceEmpty, hl, hi]⟩
  · intro hn
    simp [targetLabel, replaceOnceEmpty, hl, hn]

/-- Witness for C6: the "ende"/"en" example through the theorem, and a key
without an occurrence of the language code. -/
theorem claim_C6_target_label_witness :
    targetLabel "ende" "en"
      = toUpperStr (String.mk (("ende".data.take 0) ++
          ("ende".data.drop (0 + "en".data.length)))) ∧
    targetLabel "frit" "xx" = toUpperStr "frit" :=
  ⟨((claim_C6_target_label.2 "ende" "en" (by decide)).1 0 (by decide)).2.2,
   (claim_C6_target_label.2 "frit" "xx" (by decide)).2 (by decide)⟩

/-- The inner loop leaves the remainder `num % v` and appends its symbol
`num / v` times to the builder. -/
theorem toRomanLoop_eq (v : Nat) (hv : 0 < v) (sym : String) :
    ∀ num sb, toRomanLoop v sym num sb
      = (num % v, sb ++ repeatStr sym (num / v)) := by
  intro num
  induction num using Nat.strong_induction_on with
  | _ num ih =>
      intro sb
      rw [toRomanLoop]
      by_cases hc : v ≤ num
      · rw [dif_pos ⟨hv, hc⟩, ih (num - v) (by omega) (sb ++ sym)]
        rw [Nat.div_eq_sub_div hv hc, ← Nat.mod_eq_sub_mod hc]
        have hrep : repeatStr sym ((num - v) / v + 1)
            = sym ++ repeatStr sym ((num - v) / v) := rfl
        rw [hrep, String.append_assoc]
      · rw [dif_neg (by omega)]
        rw [Nat.mod_eq_of_lt (by omega), Nat.div_eq_of_lt (by omega)]
        have : repeatStr sym 0 = "" := rfl
        rw [this, String.append_empty]

/-- The outer loop, over any table of positive values, is the loop-free
div/mod form appended to the builder. -/
theorem toRomanAux_pure :
    ∀ (l : List (Nat × String)) (num : Nat) (sb : String),
      (∀ p ∈ l, 0 < p.1) → toRomanAux l num sb = sb ++ romanPure l num := by
  intro l
  induction l with
  | nil => intro num sb _; simp [toRomanAux, romanPure]
  | cons p rest ih =>
      rcases p with ⟨v, sym⟩
      intro num sb hpos
      have hv : 0 < v := hpos (v, sym) (by simp)
      have hrest : ∀ q ∈ rest, 0 < q.1 := fun q hq => hpos q (by simp [hq])
      simp only [toRomanAux]
      rw [toRomanLoop_eq v hv sym num sb]
      simp only [romanPure]
      rw [ih (num % v) (sb ++ repeatStr sym (num / v)) hrest,
        String.append_assoc]

/-- `toRoman` in loop-free form. -/
theorem toRoman_eq_pure (n : Nat) :
    toRoman n = romanPure (vals.zip romans) n := by
  have h := toRomanAux_pure (vals.zip romans) n "" (by decide)
  simpa [toRoman] using h

/-- When no table value fits the remainder, the div/mod form is empty. -/
theorem romanPure_find_none :
    ∀ (l : List (Nat × String)) (n : Nat),
      l.find? (fun p => p.1 ≤ n) = none → romanPure l n = "" := by
  intro l
  induction l with
  | nil => intro n _; rfl
  | cons p rest ih =>
      rcases p with ⟨v, sym⟩
      intro n h
      rw [List.find?_cons] at h
      by_cases hv : v ≤ n
      · simp [hv] at h
      · have h2 : rest.find? (fun p => p.1 ≤ n) = none := by
          simpa [hv] using h
        have hn : n < v := by omega
        simp [romanPure, Nat.div_eq_of_lt hn, Nat.mod_eq_of_lt hn,
          repeatStr, ih n h2]

/-- When the first fitting table value is `v` with symbol `sym`, the div/mod
form peels exactly one `sym` and continues at `n - v`. -/
theorem romanPure_find_some :
    ∀ (l : List (Nat × String)) (n v : Nat) (sym : String),
      (∀ p ∈ l, 0 < p.1) →
      l.find? (fun p => p.1 ≤ n) = some (v, sym) →
      romanPure l n = sym ++ romanPure l (n - v) := by
  intro l
  induction l with
  | nil => intro n v sym _ h; simp at h
  | cons q rest ih =>
      rcases q with ⟨w, t⟩
      intro n v sym hpos h
      rw [List.find?_cons] at h
      by_cases hw : w ≤ n
      · have hvw : v = w ∧ sym = t := by
          have := h
          simp [hw] at this
          exact ⟨this.1.symm, this.2.symm⟩
        obtain ⟨rfl, rfl⟩ := hvw
        have hw0 : 0 < v := hpos (v, sym) (by simp)
        simp only [romanPure]
        rw [Nat.div_eq_sub_div hw0 hw, ← Nat.mod_eq_sub_mod hw]
        have hrep : repeatStr sym ((n - v) / v + 1)
            = sym ++ repeatStr sym ((n - v) / v) := rfl
        rw [hrep, String.append_assoc]
      · have h2 : rest.find? (fun p => p.1 ≤ n) = some (v, sym) := by
          simpa [hw] using h
        have hrest : ∀ q ∈ rest, 0 < q.1 := fun q hq => hpos q (by simp [hq])
        have hvn : v ≤ n := by
          have := List.find?_some h2
          simpa using this
        have hnw : n < w := by omega
        have hnvw : n - v < w := by omega
        simp only [romanPure]
        rw [Nat.div_eq_of_lt hnw, Nat.mod_eq_of_lt hnw,
          Nat.div_eq_of_lt hnvw, Nat.mod_eq_of_lt hnvw]
        have hrep : repeatStr t 0 = "" := rfl
        rw [hrep, ih n v sym hrest h2]
        simp

/-- The division form of `toRoman` agrees with the spec's greedy subtractive
algorithm on every input. -/
theorem romanPure_eq_greedy (n : Nat) :
    romanPure (vals.zip romans) n = greedyRoman n := by
  induction n using Nat.strong_induction_on with
  | _ n ih =>
      rw [greedyRoman]
      cases h : greedyStep n with
      | none =>
          exact romanPure_find_none _ n (by simpa [greedyStep] using h)
      | some p =>
          rcases p with ⟨v, sym⟩
          have hfind : (vals.zip romans).find? (fun p => p.1 ≤ n)
              = some (v, sym) := by simpa [greedyStep] using h
          have hpos : ∀ q ∈ vals.zip romans, 0 < q.1 := by decide
          have hv0 : 0 < v := hpos _ (List.mem_of_find?_eq_some hfind)
          have hvn : v ≤ n := by simpa using List.find?_some hfind
          rw [romanPure_find_some _ n v sym hpos hfind, ih (n - v) (by omega)]

/-- C7: for every input, the Roman-numeral conversion equals the greedy
subtractive algorithm over the fixed value/symbol table — repeatedly
subtracting the largest value not exceeding the remainder and appending its
symbol until the remainder is zero — and in particular 1 ↦ "I", 4 ↦ "IV",
9 ↦ "IX", 40 ↦ "XL", 90 ↦ "XC", 1994 ↦ "MCMXCIV". -/
theorem claim_C7_roman :
    (∀ n : Nat, toRoman n = greedyRoman n) ∧
    toRoman 1 = "I" ∧ toRoman 4 = "IV" ∧ toRoman 9 = "IX" ∧
    toRoman 40 = "XL" ∧ toRoman 90 = "XC" ∧ toRoman 1994 = "MCMXCIV" := by
  refine ⟨fun n => (toRoman_eq_pure n).trans (romanPure_eq_greedy n),
    ?_, ?_, ?_, ?_, ?_, ?_⟩ <;> rw [toRoman_eq_pure] <;> decide

end Pons
